import Mathlib

/-!
# Verification of the KTX boarding-data pipeline (`app.py`)

Shallow embedding of the data-transformation pipeline of the Streamlit app:
filtering by selected stations and an inclusive date interval, and the
derived views (time series, per-station means, boarding shares, month×station
heatmap, boarding−alighting differentials, top-5 ranking).

Conventions of the embedding:
* a pandas DataFrame is a `List Row` in row order;
* `운행년월` (a month-granularity datetime) is a `YM` (year, month); its
  `.dt.date` value is the first day of that month, modelled as `DateV`;
* calendar dates compare lexicographically on (year, month, day);
* passenger counts are `Int` (the source never validates non-negativity);
* the two derived difference columns added by stage 8 are `Option Int`
  fields, `none` while the column is absent from the DataFrame;
* `groupby` enumerates group keys in ascending order (pandas `sort=True`);
* real-valued results (means, shares) are `ℚ`.
-/

/-- A year-month period (column `운행년월`, normalized to a calendar month). -/
structure YM where
  y : Nat
  m : Nat
deriving DecidableEq, Repr

/-- A calendar date (used for the `시작 날짜` / `종료 날짜` inputs and for
`df['운행년월'].dt.date`). -/
structure DateV where
  y : Nat
  m : Nat
  d : Nat
deriving DecidableEq, Repr

/-- Date order: lexicographic on (year, month, day). -/
def DateV.le (a b : DateV) : Bool :=
  a.y < b.y || (a.y = b.y && (a.m < b.m || (a.m = b.m && a.d ≤ b.d)))

/-- Strict date order, `a < b`. -/
def DateV.lt (a b : DateV) : Bool :=
  a.y < b.y || (a.y = b.y && (a.m < b.m || (a.m = b.m && a.d < b.d)))

/-- The date value of a month period: its first day
(`pd.to_datetime` on a year-month normalizes to day 1). -/
def YM.date (p : YM) : DateV := ⟨p.y, p.m, 1⟩

/-- One row of the DataFrame. Base columns are the CSV columns
(`정차역`, `운행년월`, `하행_승차인원수`, `하행_하차인원수`, `상행_승차인원수`,
`상행_하차인원수`); `downDiff`/`upDiff` model the dynamically added columns
`하행_승하차차이`/`상행_승하차차이`, absent (`none`) until stage 8 writes them. -/
structure Row where
  station : String
  period : YM
  boardingDown : Int
  alightingDown : Int
  boardingUp : Int
  alightingUp : Int
  downDiff : Option Int := none
  upDiff : Option Int := none
deriving DecidableEq, Repr

/-- The user's filter selection: `selected_stations`, `start_date`, `end_date`. -/
structure Criteria where
  stations : List String
  dateFrom : DateV
  dateTo : DateV
deriving DecidableEq, Repr

/-- The row-inclusion predicate of line 54-56:
`df['정차역'].isin(selected_stations) & (df['운행년월'].dt.date >= start_date)
& (df['운행년월'].dt.date <= end_date)`. -/
def rowMatches (c : Criteria) (r : Row) : Bool :=
  c.stations.contains r.station
    && DateV.le c.dateFrom r.period.date
    && DateV.le r.period.date c.dateTo

/-- The two ways the filter stage halts the run (each via `st.stop()`). -/
inductive FilterError where
  | invalidDateRange
  | emptyResult
deriving DecidableEq, Repr

/-- The user-facing message of each filter error (lines 51 and 59). -/
def errMsg : FilterError → String
  | .invalidDateRange => "시작 날짜가 종료 날짜보다 늦습니다. 다시 선택해주세요."
  | .emptyResult => "선택한 조건에 해당하는 데이터가 없습니다. 다른 조건을 선택해주세요."

/-- Lines 50-60: reject `start_date > end_date`, filter the table, and
reject an empty result; otherwise hand the filtered table on. -/
def runFilter (df : List Row) (c : Criteria) : Except FilterError (List Row) :=
  if DateV.lt c.dateTo c.dateFrom then
    .error .invalidDateRange
  else
    let filtered := df.filter (rowMatches c)
    if filtered.isEmpty then .error .emptyResult
    else .ok filtered

/-- The rows of one station's group: `filtered_df[filtered_df['정차역'] == station]`
(line 66) and the row set of a `groupby('정차역')` group, in original row order. -/
def stationSeries (t : List Row) (s : String) : List Row :=
  t.filter (fun r => r.station == s)

/-- Distinct stations of a table in ascending order: the group-key axis of
every `groupby('정차역')` (pandas enumerates group keys sorted ascending),
same construction as `sorted(df['정차역'].unique())` on line 32. -/
def stationsSorted (t : List Row) : List String :=
  ((t.map Row.station).dedup).mergeSort (fun a b => decide (a ≤ b))

/-- Stage 1, lines 65-76: one trace group per *selected* station, each holding
that station's filtered rows in the order they sit in `filtered_df`. -/
def timeSeries (t : List Row) (sel : List String) : List (String × List Row) :=
  sel.map fun s => (s, stationSeries t s)

/-- The period (x-axis) sequence of one station's traces, in trace order. -/
def seriesPeriods (t : List Row) (s : String) : List YM :=
  (stationSeries t s).map (·.period)

/-- Arithmetic mean of a list of integers, as a rational. -/
def meanOf (xs : List Int) : ℚ := (xs.sum : ℚ) / (xs.length : ℚ)

/-- Stage 2, line 84: `groupby('정차역')[...4 cols...].mean()`, one row per
station (keys ascending) holding the four column means. -/
def stationAverages (t : List Row) : List (String × ℚ × ℚ × ℚ × ℚ) :=
  (stationsSorted t).map fun s =>
    let g := stationSeries t s
    (s, meanOf (g.map (·.boardingDown)), meanOf (g.map (·.alightingDown)),
        meanOf (g.map (·.boardingUp)), meanOf (g.map (·.alightingUp)))

/-- Lines 92-93: per-station `총_승차인원수` = summed down-boardings plus summed
up-boardings over the station's filtered rows. -/
def totalBoarding (t : List Row) (s : String) : Int :=
  ((stationSeries t s).map (·.boardingDown)).sum
    + ((stationSeries t s).map (·.boardingUp)).sum

/-- Stage 3, lines 92-93: the per-station total-boarding table feeding the pie. -/
def stationTotals (t : List Row) : List (String × Int) :=
  (stationsSorted t).map fun s => (s, totalBoarding t s)

/-- Modelled from the spec: the proportion each pie slice receives is computed
by the external chart renderer (`px.pie`, lines 94-95), not by code under
`src/`; per the spec it is `total_boarding / sum(total_boarding over all
included stations)`, with the all-zero denominator guarded by reporting all
shares as 0 so no NaN is produced. -/
def stationShares (t : List Row) : List (String × ℚ) :=
  let tot : Int := ((stationTotals t).map Prod.snd).sum
  (stationTotals t).map fun p => (p.1, if tot = 0 then 0 else (p.2 : ℚ) / (tot : ℚ))

/-- The digit characters used by `strftime`. Inputs are always < 10 here. -/
def dChar : Nat → Char
  | 0 => '0' | 1 => '1' | 2 => '2' | 3 => '3' | 4 => '4'
  | 5 => '5' | 6 => '6' | 7 => '7' | 8 => '8' | _ => '9'

/-- The `w` decimal digits of `n` (most significant first), zero-padded. -/
def padDigits : Nat → Nat → List Nat
  | 0, _ => []
  | w + 1, n => n / 10 ^ w :: padDigits w (n % 10 ^ w)

/-- `w`-wide zero-padded decimal rendering of `n`, as characters. -/
def padChars (w n : Nat) : List Char := (padDigits w n).map dChar

/-- Line 100: `strftime('%Y-%m')` — four-digit zero-padded year, a hyphen,
two-digit zero-padded month. -/
def monthStr (p : YM) : String := ⟨padChars 4 p.y ++ '-' :: padChars 2 p.m⟩

/-- Distinct `월` keys in ascending (string) order: the month axis the
`groupby(['월', '정차역'])` + `unstack()` of line 102 produces. -/
def monthsSorted (t : List Row) : List String :=
  ((t.map fun r => monthStr r.period).dedup).mergeSort (fun a b => decide (a ≤ b))

/-- One heatmap cell: the mean `총_승차인원수` (down+up boardings, line 101) of
the `(월, 정차역)` group, or the missing marker (NaN after `unstack`) when the
group has no rows. -/
def heatCell (t : List Row) (mo s : String) : Option ℚ :=
  let g := t.filter (fun r => monthStr r.period == mo && r.station == s)
  if g.isEmpty then none
  else some (meanOf (g.map (fun r => r.boardingDown + r.boardingUp)))

/-- Stage 4, lines 99-102: the month × station matrix of mean total boardings. -/
def monthlyHeat (t : List Row) : List (String × List (String × Option ℚ)) :=
  (monthsSorted t).map fun mo =>
    (mo, (stationsSorted t).map fun s => (s, heatCell t mo s))

/-- The direction tag (`방향`) of the melted differential table. -/
inductive Direction where
  | down
  | up
deriving DecidableEq, Repr

/-- Lines 130-131: the in-place column assignments
`filtered_df['하행_승하차차이'] = ...` and `filtered_df['상행_승하차차이'] = ...` —
the same table with the two derived columns now present. -/
def addDiffCols (t : List Row) : List Row :=
  t.map fun r =>
    { r with downDiff := some (r.boardingDown - r.alightingDown),
             upDiff := some (r.boardingUp - r.alightingUp) }

/-- Lines 132-133: `melt(id_vars=['정차역'], value_vars=[두 차이 컬럼])` — all
down-difference rows first, then all up-difference rows, each keyed
(station, direction, value). Reads the columns stage 8 just wrote. -/
def meltDiffs (t : List Row) : List (String × Direction × Int) :=
  (t.map fun r => (r.station, Direction.down, r.downDiff.getD 0))
    ++ t.map fun r => (r.station, Direction.up, r.upDiff.getD 0)

/-- Stage 8 as one map: add the two difference columns, then melt. -/
def differential (t : List Row) : List (String × Direction × Int) :=
  meltDiffs (addDiffCols t)

/-- Per-station sum of down-direction boardings:
`groupby('정차역')['하행_승차인원수'].sum()` (line 139). -/
def downSum (t : List Row) (s : String) : Int :=
  ((stationSeries t s).map (·.boardingDown)).sum

/-- The order `nlargest(5)` ranks the per-station sums in: value descending,
ties by station name ascending. `nlargest` (keep='first') is a stable
descending selection, and its input series carries the `groupby` keys in
ascending order, so ties resolve to ascending station name. -/
def rankLe (a b : String × Int) : Bool :=
  b.2 < a.2 || (a.2 = b.2 && a.1 ≤ b.1)

/-- The per-station down-boarding sums ranked in `nlargest` order. -/
def rankedStations (t : List Row) : List (String × Int) :=
  ((stationsSorted t).map fun s => (s, downSum t s)).mergeSort rankLe

/-- Line 139: `top_5_stations` — the first five ranked station names. -/
def top5Stations (t : List Row) : List String :=
  ((rankedStations t).take 5).map Prod.fst

/-- Line 140: `top_5_data = filtered_df[filtered_df['정차역'].isin(top_5_stations)]`. -/
def top5Data (t : List Row) : List Row :=
  t.filter (fun r => (top5Stations t).contains r.station)

/-- The derived tables the nine views consume. -/
structure Views where
  timeSeries : List (String × List Row)
  stationAverages : List (String × ℚ × ℚ × ℚ × ℚ)
  stationShares : List (String × ℚ)
  monthlyHeat : List (String × List (String × Option ℚ))
  differential : List (String × Direction × Int)
  top5Stations : List String
  top5Data : List Row

/-- Lines 62-143: the aggregations computed from the filtered table. Stage 8
(lines 130-131) rewrites `filtered_df` in place by adding the two difference
columns, so stage 9 (lines 139-140) reads the rewritten table `t2`. -/
def buildViews (c : Criteria) (t : List Row) : Views :=
  let t2 := addDiffCols t
  { timeSeries := timeSeries t c.stations
    stationAverages := stationAverages t
    stationShares := stationShares t
    monthlyHeat := monthlyHeat t
    differential := meltDiffs t2
    top5Stations := top5Stations t2
    top5Data := top5Data t2 }

/-- The whole per-filter-change run: filter, then (only on success) the
aggregations. An error halts the run (`st.stop()`) with no views computed. -/
def pipeline (df : List Row) (c : Criteria) : Except FilterError Views :=
  (runFilter df c).map (buildViews c)

theorem DateV.lt_eq_not_le (a b : DateV) : DateV.lt a b = ! DateV.le b a := by
  rcases a with ⟨ay, am, ad⟩
  rcases b with ⟨by_, bm, bd⟩
  simp only [DateV.lt, DateV.le]
  rw [Bool.eq_iff_iff]
  simp only [Bool.not_eq_true', Bool.or_eq_false_iff, Bool.and_eq_false_iff,
    Bool.or_eq_true, Bool.and_eq_true, decide_eq_true_eq, decide_eq_false_iff_not]
  omega

/-! ## Sample data for the concrete witnesses -/

/-- A sample row for station 서울, January 2023. -/
def seoulRow : Row :=
  { station := "서울", period := ⟨2023, 1⟩, boardingDown := 10, alightingDown := 5,
    boardingUp := 7, alightingUp := 3 }

/-- A sample row for station 부산, February 2023. -/
def busanRow : Row :=
  { station := "부산", period := ⟨2023, 2⟩, boardingDown := 30, alightingDown := 5,
    boardingUp := 9, alightingUp := 3 }

/-- A criteria selecting both sample stations over all of 2023. -/
def sampleCrit : Criteria :=
  { stations := ["서울", "부산"], dateFrom := ⟨2023, 1, 1⟩, dateTo := ⟨2023, 12, 31⟩ }

/-- A criteria whose date interval is inverted (start after end). -/
def invCrit : Criteria :=
  { stations := ["서울"], dateFrom := ⟨2023, 5, 1⟩, dateTo := ⟨2023, 1, 1⟩ }

/-- A valid-range criteria matching no sample row. -/
def noMatchCrit : Criteria :=
  { stations := ["광명"], dateFrom := ⟨2023, 1, 1⟩, dateTo := ⟨2023, 12, 31⟩ }

/-! ## C1 -/

/-- C1: with `date_from ≤ date_to`, a successful filter returns exactly the
subsequence of input rows (original order preserved) whose station is
selected and whose period lies in the inclusive date interval; every output
row is an input row satisfying both predicates and no qualifying row is
dropped. -/
theorem filter_returns_exact_subsequence (df : List Row) (c : Criteria)
    (hrange : DateV.le c.dateFrom c.dateTo = true) (out : List Row)
    (hok : runFilter df c = Except.ok out) :
    out = df.filter (rowMatches c) ∧
    out.Sublist df ∧
    (∀ r ∈ out, c.stations.contains r.station = true ∧
      DateV.le c.dateFrom r.period.date = true ∧
      DateV.le r.period.date c.dateTo = true) ∧
    (∀ r ∈ df, rowMatches c r = true → r ∈ out) := by
  have heq : out = df.filter (rowMatches c) := by
    simp only [runFilter] at hok
    split at hok
    · simp at hok
    · split at hok
      · simp at hok
      · simp only [Except.ok.injEq] at hok
        exact hok.symm
  subst heq
  refine ⟨rfl, List.filter_sublist df, ?_, ?_⟩
  · intro r hr
    rw [List.mem_filter] at hr
    have hm := hr.2
    simp only [rowMatches, Bool.and_eq_true] at hm
    exact ⟨hm.1.1, hm.1.2, hm.2⟩
  · intro r hrdf hm
    exact List.mem_filter.mpr ⟨hrdf, hm⟩

theorem filter_returns_exact_subsequence_witness :
    [seoulRow, busanRow].Sublist [seoulRow, busanRow] ∧
    (∀ r ∈ [seoulRow, busanRow], rowMatches sampleCrit r = true →
      r ∈ [seoulRow, busanRow]) := by
  have h := filter_returns_exact_subsequence [seoulRow, busanRow] sampleCrit
    (by decide) [seoulRow, busanRow] (by rfl)
  exact ⟨h.2.1, h.2.2.2⟩

/-! ## C2 -/

/-- C2: whenever `date_from > date_to`, the filter stage fails with
`InvalidDateRange` and the whole pipeline halts with that error — no views
are produced — regardless of which stations are selected. -/
theorem filter_rejects_inverted_range (df : List Row) (c : Criteria)
    (h : DateV.lt c.dateTo c.dateFrom = true) :
    runFilter df c = Except.error FilterError.invalidDateRange ∧
    pipeline df c = Except.error FilterError.invalidDateRange := by
  have h1 : runFilter df c = Except.error FilterError.invalidDateRange := by
    simp [runFilter, h]
  exact ⟨h1, by simp [pipeline, h1, Except.map]⟩

theorem filter_rejects_inverted_range_witness :
    pipeline [seoulRow] invCrit = Except.error FilterError.invalidDateRange :=
  (filter_rejects_inverted_range [seoulRow] invCrit (by decide)).2

/-! ## C3 -/

/-- C3: when `date_from ≤ date_to` but the filtered result is empty, the
pipeline halts with `EmptyResultError` before any aggregation or view is
computed, and this error kind — and its user-facing message — is distinct
from `InvalidDateRange`. -/
theorem filter_empty_result_distinct (df : List Row) (c : Criteria)
    (hrange : DateV.le c.dateFrom c.dateTo = true)
    (hempty : df.filter (rowMatches c) = []) :
    pipeline df c = Except.error FilterError.emptyResult ∧
    runFilter df c = Except.error FilterError.emptyResult ∧
    FilterError.emptyResult ≠ FilterError.invalidDateRange ∧
    errMsg FilterError.emptyResult ≠ errMsg FilterError.invalidDateRange := by
  have hlt : DateV.lt c.dateTo c.dateFrom = false := by
    rw [DateV.lt_eq_not_le, hrange]
    rfl
  have h1 : runFilter df c = Except.error FilterError.emptyResult := by
    simp [runFilter, hlt, hempty]
  exact ⟨by simp [pipeline, h1, Except.map], h1, by decide, by decide⟩

theorem filter_empty_result_distinct_witness :
    pipeline [seoulRow] noMatchCrit = Except.error FilterError.emptyResult :=
  (filter_empty_result_distinct [seoulRow] noMatchCrit (by decide) (by rfl)).1

/-! ## C6 -/

/-- C6: on any non-empty filtered table the Differential stage computes
`down_diff = boarding_down − alighting_down` and
`up_diff = boarding_up − alighting_up` per row, and its melted long form has
exactly twice as many rows as the filtered table — one `(station, direction,
diff value)` row per direction per original row. -/
theorem differential_long_form (t : List Row) (ht : t ≠ []) :
    (differential t).length = 2 * t.length ∧
    differential t =
      (t.map fun r => (r.station, Direction.down, r.boardingDown - r.alightingDown))
        ++ t.map fun r => (r.station, Direction.up, r.boardingUp - r.alightingUp) := by
  constructor
  · simp only [differential, meltDiffs, addDiffCols, List.length_append,
      List.length_map]
    omega
  · simp only [differential, meltDiffs, addDiffCols, List.map_map]
    rfl

theorem differential_long_form_witness :
    (differential [seoulRow, busanRow]).length = 2 * [seoulRow, busanRow].length :=
  (differential_long_form [seoulRow, busanRow] (by decide)).1

/-! ## C8 -/

/-- A general commutation fact: mapping a row transform that leaves a
predicate's inputs untouched commutes with filtering by that predicate. -/
theorem filter_comm_of_map (f : Row → Row) (p : Row → Bool)
    (h : ∀ r, p (f r) = p r) (t : List Row) :
    (t.map f).filter p = (t.filter p).map f := by
  rw [List.filter_map]
  congr 1
  apply List.filter_congr
  intro r _
  exact h r

/-- Erase the two dynamically added difference columns. -/
def eraseDiffCols (t : List Row) : List Row :=
  t.map fun r => { r with downDiff := none, upDiff := none }

/-- C8 counterexample: the Differential stage does **not** leave the filtered
table unchanged — lines 130-131 assign the two difference columns into
`filtered_df` itself, so the table differs (by two new columns) after the
stage runs. -/
theorem diff_stage_mutates_table : addDiffCols [seoulRow] ≠ [seoulRow] := by
  decide

/-- C8 amended: every stage except the Differential stage produces a new
table from the filtered table; the Differential stage rewrites the filtered
table in place by adding the `하행_승하차차이`/`상행_승하차차이` columns, but it
preserves every original column and the row order (erasing the added columns
recovers the original table), so the TopN stage — which runs afterward on the
rewritten table — computes the same ranking and selects the same rows as it
would on the unmutated table. -/
theorem diff_stage_mutation_is_benign (t : List Row) :
    eraseDiffCols (addDiffCols t) = eraseDiffCols t ∧
    (addDiffCols t).map Row.station = t.map Row.station ∧
    (addDiffCols t).map Row.period = t.map Row.period ∧
    rankedStations (addDiffCols t) = rankedStations t ∧
    top5Stations (addDiffCols t) = top5Stations t ∧
    top5Data (addDiffCols t) = addDiffCols (top5Data t) := by
  have hstations : (addDiffCols t).map Row.station = t.map Row.station := by
    simp only [addDiffCols, List.map_map]
    rfl
  have hseries : ∀ s, stationSeries (addDiffCols t) s = addDiffCols (stationSeries t s) := by
    intro s
    simp only [stationSeries, addDiffCols]
    apply filter_comm_of_map
    intro r
    rfl
  have hsorted : stationsSorted (addDiffCols t) = stationsSorted t := by
    simp only [stationsSorted, hstations]
  have hdown : ∀ s, downSum (addDiffCols t) s = downSum t s := by
    intro s
    unfold downSum
    rw [hseries s]
    simp only [addDiffCols, List.map_map]
    rfl
  have hranked : rankedStations (addDiffCols t) = rankedStations t := by
    simp only [rankedStations, hsorted]
    congr 1
    apply List.map_congr_left
    intro s _
    rw [hdown]
  have htop : top5Stations (addDiffCols t) = top5Stations t := by
    simp only [top5Stations, hranked]
  refine ⟨?_, hstations, ?_, hranked, htop, ?_⟩
  · simp only [eraseDiffCols, addDiffCols, List.map_map]
    rfl
  · simp only [addDiffCols, List.map_map]
    rfl
  · simp only [top5Data]
    rw [htop]
    simp only [addDiffCols]
    apply filter_comm_of_map
    intro r
    rfl

/-! ## C9 -/

/-- Chronological (non-strict) order on month periods. -/
def ymLeB (p q : YM) : Bool :=
  p.y < q.y || (p.y = q.y && p.m ≤ q.m)

/-- A deliberately out-of-order table: station A's February row precedes its
January row, as the raw CSV is free to do. -/
def rowLate : Row :=
  { station := "A", period := ⟨2023, 2⟩, boardingDown := 1, alightingDown := 1,
    boardingUp := 1, alightingUp := 1 }

/-- The January row that follows `rowLate` in the out-of-order table. -/
def rowEarly : Row :=
  { station := "A", period := ⟨2023, 1⟩, boardingDown := 2, alightingDown := 2,
    boardingUp := 2, alightingUp := 2 }

/-- A criteria accepting both rows of the out-of-order table. -/
def chronoCrit : Criteria :=
  { stations := ["A"], dateFrom := ⟨2023, 1, 1⟩, dateTo := ⟨2023, 12, 31⟩ }

/-- C9 counterexample: the TimeSeries view presents each station's series in
the filtered table's original row order, not sorted by period — on a filter
output whose rows are not chronologically ordered, station A's period axis is
`[2023-02, 2023-01]`, which is not in chronological order. -/
theorem timeSeries_not_always_chronological :
    runFilter [rowLate, rowEarly] chronoCrit = Except.ok [rowLate, rowEarly] ∧
    seriesPeriods [rowLate, rowEarly] "A" = [⟨2023, 2⟩, ⟨2023, 1⟩] ∧
    ¬ (seriesPeriods [rowLate, rowEarly] "A").Pairwise (fun p q => ymLeB p q = true) := by
  refine ⟨rfl, rfl, ?_⟩
  decide

/-- C9 amended: the TimeSeries view groups rows by station and presents each
station's four series in the filtered table's original row order; whenever the
filtered table is chronologically ordered by period (in particular whenever
the source file lists months in increasing order), each station's series is in
chronological order. -/
theorem timeSeries_follows_row_order (t : List Row) (sel : List String)
    (hsort : (t.map Row.period).Pairwise (fun p q => ymLeB p q = true)) :
    timeSeries t sel = sel.map (fun s => (s, t.filter (fun r => r.station == s))) ∧
    ∀ s, (seriesPeriods t s).Pairwise (fun p q => ymLeB p q = true) := by
  refine ⟨rfl, ?_⟩
  intro s
  have h1 : t.Pairwise (fun r1 r2 => ymLeB r1.period r2.period = true) :=
    List.pairwise_map.mp hsort
  have h2 : (stationSeries t s).Pairwise (fun r1 r2 => ymLeB r1.period r2.period = true) :=
    List.Pairwise.sublist (List.filter_sublist t) h1
  exact List.pairwise_map.mpr h2

theorem timeSeries_follows_row_order_witness :
    timeSeries [rowEarly, rowLate] ["A"] =
      [("A", [rowEarly, rowLate])] ∧
    (seriesPeriods [rowEarly, rowLate] "A").Pairwise (fun p q => ymLeB p q = true) := by
  have h := timeSeries_follows_row_order [rowEarly, rowLate] ["A"] (by decide)
  exact ⟨by rw [h.1]; rfl, h.2 "A"⟩

/-! ## C4 -/

/-- `rankLe` in propositional form. -/
theorem rankLe_iff (a b : String × Int) :
    rankLe a b = true ↔ (b.2 < a.2 ∨ (a.2 = b.2 ∧ a.1 ≤ b.1)) := by
  simp [rankLe]

/-- `rankLe` is transitive (needed for `nlargest`'s ordering to make sense). -/
theorem rankLe_trans (a b c : String × Int) (h1 : rankLe a b) (h2 : rankLe b c) :
    rankLe a c := by
  rw [rankLe_iff] at h1 h2 ⊢
  rcases h1 with h1 | ⟨h1e, h1s⟩
  · rcases h2 with h2 | ⟨h2e, _⟩
    · exact Or.inl (lt_trans h2 h1)
    · exact Or.inl (h2e ▸ h1)
  · rcases h2 with h2 | ⟨h2e, h2s⟩
    · exact Or.inl (h1e ▸ h2)
    · exact Or.inr ⟨h1e.trans h2e, le_trans h1s h2s⟩

/-- `rankLe` is total. -/
theorem rankLe_total (a b : String × Int) : rankLe a b || rankLe b a := by
  rcases lt_trichotomy a.2 b.2 with h | h | h
  · have : rankLe b a = true := rankLe_iff b a |>.mpr (Or.inl h)
    simp [this]
  · rcases le_total a.1 b.1 with hs | hs
    · have : rankLe a b = true := rankLe_iff a b |>.mpr (Or.inr ⟨h, hs⟩)
      simp [this]
    · have : rankLe b a = true := rankLe_iff b a |>.mpr (Or.inr ⟨h.symm, hs⟩)
      simp [this]
  · have : rankLe a b = true := rankLe_iff a b |>.mpr (Or.inl h)
    simp [this]

/-- C4: on any non-empty filtered table, TopN ranks the distinct stations by
descending down-direction boarding sum with ties broken by ascending station
name, keeps at most 5 of them — exactly 5 whenever the filtered data has at
least 5 distinct stations — and returns the subsequence of filtered rows (in
original row order) belonging to exactly those stations. -/
theorem top5_ranking_spec (t : List Row) (ht : t ≠ []) :
    (top5Stations t).length ≤ 5 ∧
    (5 ≤ ((t.map Row.station).dedup).length → (top5Stations t).length = 5) ∧
    (rankedStations t).Perm ((stationsSorted t).map fun s => (s, downSum t s)) ∧
    (rankedStations t).Pairwise (fun a b => b.2 < a.2 ∨ (a.2 = b.2 ∧ a.1 ≤ b.1)) ∧
    top5Stations t = ((rankedStations t).take 5).map Prod.fst ∧
    (top5Data t).Sublist t ∧
    (∀ r ∈ t, (r ∈ top5Data t ↔ r.station ∈ top5Stations t)) := by
  have hlen : (rankedStations t).length = ((t.map Row.station).dedup).length := by
    simp [rankedStations, stationsSorted]
  have hlen5 : (top5Stations t).length = min 5 ((t.map Row.station).dedup).length := by
    simp [top5Stations, hlen]
  refine ⟨?_, ?_, ?_, ?_, rfl, List.filter_sublist t, ?_⟩
  · rw [hlen5]; omega
  · intro h5; rw [hlen5]; omega
  · exact List.mergeSort_perm _ _
  · have hs := List.sorted_mergeSort rankLe_trans rankLe_total
      ((stationsSorted t).map fun s => (s, downSum t s))
    exact hs.imp (fun h => (rankLe_iff _ _).mp h)
  · intro r hr
    constructor
    · intro hmem
      have := (List.mem_filter.mp hmem).2
      simpa using this
    · intro hmem
      refine List.mem_filter.mpr ⟨hr, ?_⟩
      simpa using hmem

/-- A six-station table exercising the top-5 cut. -/
def sixRows : List Row :=
  [{ station := "A", period := ⟨2023, 1⟩, boardingDown := 6, alightingDown := 0,
     boardingUp := 0, alightingUp := 0 },
   { station := "B", period := ⟨2023, 1⟩, boardingDown := 5, alightingDown := 0,
     boardingUp := 0, alightingUp := 0 },
   { station := "C", period := ⟨2023, 1⟩, boardingDown := 4, alightingDown := 0,
     boardingUp := 0, alightingUp := 0 },
   { station := "D", period := ⟨2023, 1⟩, boardingDown := 4, alightingDown := 0,
     boardingUp := 0, alightingUp := 0 },
   { station := "E", period := ⟨2023, 1⟩, boardingDown := 2, alightingDown := 0,
     boardingUp := 0, alightingUp := 0 },
   { station := "F", period := ⟨2023, 1⟩, boardingDown := 1, alightingDown := 0,
     boardingUp := 0, alightingUp := 0 }]

theorem top5_ranking_spec_witness :
    (top5Stations sixRows).length = 5 := by
  have h := top5_ranking_spec sixRows (by decide)
  exact h.2.1 (by decide)

/-! ## C5 -/

/-- Dividing every list element by `d` divides the sum by `d`. -/
theorem sum_map_div_rat (l : List ℚ) (d : ℚ) :
    (l.map fun x => x / d).sum = l.sum / d := by
  induction l with
  | nil => simp
  | cons a l ih => simp [ih, add_div]

/-- Under the record invariant (non-negative counts), every per-station total
boarding is non-negative. -/
theorem totalBoarding_nonneg (t : List Row)
    (hnn : ∀ r ∈ t, 0 ≤ r.boardingDown ∧ 0 ≤ r.boardingUp) (s : String) :
    0 ≤ totalBoarding t s := by
  unfold totalBoarding
  have h1 : 0 ≤ ((stationSeries t s).map (·.boardingDown)).sum := by
    apply List.sum_nonneg
    intro x hx
    obtain ⟨r, hr, rfl⟩ := List.mem_map.mp hx
    exact (hnn r (List.mem_of_mem_filter hr)).1
  have h2 : 0 ≤ ((stationSeries t s).map (·.boardingUp)).sum := by
    apply List.sum_nonneg
    intro x hx
    obtain ⟨r, hr, rfl⟩ := List.mem_map.mp hx
    exact (hnn r (List.mem_of_mem_filter hr)).2
  omega

/-- C5: on any non-empty filtered table with the record invariant (counts
non-negative), StationShares gives every grouped station the proportion
`total_boarding / Σ total_boarding`; the proportions sum to 1 whenever some
station has a nonzero total, and in the all-zero degenerate case every
station is still listed, each with share 0 (no division by zero occurs). -/
theorem stationShares_spec (t : List Row) (ht : t ≠ [])
    (hnn : ∀ r ∈ t, 0 ≤ r.boardingDown ∧ 0 ≤ r.boardingUp) :
    (stationShares t).map Prod.fst = stationsSorted t ∧
    ((∃ p ∈ stationTotals t, p.2 ≠ 0) →
      ((stationShares t).map Prod.snd).sum = 1) ∧
    ((∀ p ∈ stationTotals t, p.2 = 0) →
      ∀ q ∈ stationShares t, q.2 = 0) := by
  have hnn' : ∀ p ∈ stationTotals t, 0 ≤ p.2 := by
    intro p hp
    obtain ⟨s, _, rfl⟩ := List.mem_map.mp hp
    exact totalBoarding_nonneg t hnn s
  refine ⟨?_, ?_, ?_⟩
  · simp only [stationShares, stationTotals, List.map_map]
    show (stationsSorted t).map (fun s => s) = stationsSorted t
    simp
  · rintro ⟨p, hp, hpne⟩
    have htotpos : 0 < ((stationTotals t).map Prod.snd).sum := by
      have hle : p.2 ≤ ((stationTotals t).map Prod.snd).sum := by
        apply List.single_le_sum
        · intro x hx
          obtain ⟨q, hq, rfl⟩ := List.mem_map.mp hx
          exact hnn' q hq
        · exact List.mem_map.mpr ⟨p, hp, rfl⟩
      have := hnn' p hp
      omega
    have htot0 : ((stationTotals t).map Prod.snd).sum ≠ 0 := by omega
    have step1 : (stationShares t).map Prod.snd
        = (stationTotals t).map (fun p : String × Int =>
            (p.2 : ℚ) / (((stationTotals t).map Prod.snd).sum : ℚ)) := by
      simp only [stationShares, List.map_map]
      apply List.map_congr_left
      intro q _
      simp [htot0]
    have step2 : (stationTotals t).map (fun p : String × Int =>
            (p.2 : ℚ) / (((stationTotals t).map Prod.snd).sum : ℚ))
        = (((stationTotals t).map Prod.snd).map (Int.cast : Int → ℚ)).map
            (fun x : ℚ => x / (((stationTotals t).map Prod.snd).sum : ℚ)) := by
      simp only [List.map_map]
      rfl
    rw [step1, step2, sum_map_div_rat, ← Int.cast_list_sum, div_self]
    exact Int.cast_ne_zero.mpr htot0
  · intro hall q hq
    have htot : ((stationTotals t).map Prod.snd).sum = 0 := by
      apply List.sum_eq_zero
      intro x hx
      obtain ⟨p, hp, rfl⟩ := List.mem_map.mp hx
      exact hall p hp
    simp only [stationShares] at hq
    obtain ⟨p, _, rfl⟩ := List.mem_map.mp hq
    simp [htot]

/-- A two-station table with totals 100 and 300 (the spec's worked example). -/
def shareRows : List Row :=
  [{ station := "A", period := ⟨2023, 1⟩, boardingDown := 60, alightingDown := 0,
     boardingUp := 40, alightingUp := 0 },
   { station := "B", period := ⟨2023, 1⟩, boardingDown := 200, alightingDown := 0,
     boardingUp := 100, alightingUp := 0 }]

theorem stationShares_spec_witness :
    ((stationShares shareRows).map Prod.snd).sum = 1 := by
  have h := stationShares_spec shareRows (by decide) (by decide)
  apply h.2.1
  refine ⟨("A", totalBoarding shareRows "A"), ?_, by decide⟩
  apply List.mem_map.mpr
  refine ⟨"A", ?_, rfl⟩
  rw [stationsSorted, List.mem_mergeSort]
  decide

/-! ## C10 — the month axis -/

/-- A calendar-valid period with a four-digit (`%Y`) year. -/
def ValidYM (p : YM) : Prop := p.y < 10000 ∧ 1 ≤ p.m ∧ p.m ≤ 12

instance (p : YM) : Decidable (ValidYM p) :=
  inferInstanceAs (Decidable (p.y < 10000 ∧ 1 ≤ p.m ∧ p.m ≤ 12))

/-- Strict chronological order on periods. -/
def ymLt (p q : YM) : Prop := p.y < q.y ∨ (p.y = q.y ∧ p.m < q.m)

/-- Digit characters are ordered like the digits they render. -/
theorem dChar_lt_iff : ∀ a < 10, ∀ b < 10, (dChar a < dChar b ↔ a < b) := by
  decide

/-- `padDigits` always produces exactly `w` digits. -/
theorem padDigits_length : ∀ (w n : Nat), (padDigits w n).length = w := by
  intro w
  induction w with
  | zero => intro n; rfl
  | succ w ih => intro n; simp [padDigits, ih]

/-- `padChars` always produces exactly `w` characters. -/
theorem padChars_length (w n : Nat) : (padChars w n).length = w := by
  simp [padChars, padDigits_length]

/-- Zero-padded equal-width decimal renderings compare lexicographically the
way the numbers compare. -/
theorem padChars_lex : ∀ (w : Nat) {a b : Nat}, b < 10 ^ w → a < b →
    List.Lex (· < ·) (padChars w a) (padChars w b) := by
  intro w
  induction w with
  | zero =>
    intro a b hb hab
    omega
  | succ w ih =>
    intro a b hb hab
    have hpow : (10 : Nat) ^ (w + 1) = 10 ^ w * 10 := pow_succ 10 w
    have hwpos : 0 < (10 : Nat) ^ w := Nat.pos_pow_of_pos w (by omega)
    show List.Lex (· < ·)
      (dChar (a / 10 ^ w) :: padChars w (a % 10 ^ w))
      (dChar (b / 10 ^ w) :: padChars w (b % 10 ^ w))
    rcases Nat.lt_or_ge (a / 10 ^ w) (b / 10 ^ w) with h | h
    · apply List.Lex.rel
      have ha10 : a / 10 ^ w < 10 := Nat.div_lt_of_lt_mul (by omega)
      have hb10 : b / 10 ^ w < 10 := Nat.div_lt_of_lt_mul (by omega)
      exact (dChar_lt_iff _ ha10 _ hb10).mpr h
    · have heq : a / 10 ^ w = b / 10 ^ w :=
        le_antisymm (Nat.div_le_div_right (le_of_lt hab)) h
      rw [heq]
      apply List.Lex.cons
      apply ih (Nat.mod_lt b hwpos)
      have h1 := Nat.div_add_mod a (10 ^ w)
      have h2 := Nat.div_add_mod b (10 ^ w)
      rw [heq] at h1
      omega

/-- A lexicographic comparison of equal-length prefixes survives appending
arbitrary suffixes. -/
theorem lex_append_same_length {r : Char → Char → Prop} :
    ∀ {l₁ l₂ : List Char}, List.Lex r l₁ l₂ → l₁.length = l₂.length →
      ∀ (s₁ s₂ : List Char), List.Lex r (l₁ ++ s₁) (l₂ ++ s₂) := by
  intro l₁ l₂ h
  induction h with
  | nil =>
    intro hlen
    simp at hlen
  | cons h ih =>
    intro hlen s₁ s₂
    exact List.Lex.cons (ih (by simpa using hlen) s₁ s₂)
  | rel h =>
    intro _ s₁ s₂
    exact List.Lex.rel h

/-- `%Y-%m` strings of valid periods compare like the periods themselves:
zero-padding to a fixed width makes lexicographic order chronological. -/
theorem monthStr_lt_of_ymLt (p q : YM) (hp : ValidYM p) (hq : ValidYM q)
    (h : ymLt p q) : monthStr p < monthStr q := by
  rw [String.lt_iff_toList_lt]
  show List.Lex (· < ·)
    (padChars 4 p.y ++ '-' :: padChars 2 p.m)
    (padChars 4 q.y ++ '-' :: padChars 2 q.m)
  rcases h with hy | ⟨hy, hm⟩
  · exact lex_append_same_length
      (padChars_lex 4 (by exact hq.1) hy)
      (by rw [padChars_length, padChars_length]) _ _
  · rw [hy]
    apply List.Lex.append_left
    apply List.Lex.cons
    apply padChars_lex 2
    · have := hq.2.2
      omega
    · exact hm

/-- `monthStr` is injective on valid periods. -/
theorem monthStr_injOn (p q : YM) (hp : ValidYM p) (hq : ValidYM q)
    (h : monthStr p = monthStr q) : p = q := by
  by_contra hne
  have htri : ymLt p q ∨ ymLt q p := by
    unfold ymLt
    rcases p with ⟨py, pm⟩
    rcases q with ⟨qy, qm⟩
    simp only [YM.mk.injEq, not_and] at hne
    dsimp only
    omega
  rcases htri with h' | h'
  · exact absurd h (ne_of_lt (monthStr_lt_of_ymLt p q hp hq h'))
  · exact absurd h.symm (ne_of_lt (monthStr_lt_of_ymLt q p hq hp h'))

/-- On valid periods, `monthStr` turns chronological order into string order. -/
theorem monthStr_le_iff (p q : YM) (hp : ValidYM p) (hq : ValidYM q) :
    monthStr p ≤ monthStr q ↔ ymLeB p q = true := by
  constructor
  · intro h
    by_contra hne
    have hlt : ymLt q p := by
      simp only [ymLeB, Bool.or_eq_true, Bool.and_eq_true, decide_eq_true_eq] at hne
      unfold ymLt
      omega
    exact absurd h (not_le.mpr (monthStr_lt_of_ymLt q p hq hp hlt))
  · intro h
    simp only [ymLeB, Bool.or_eq_true, Bool.and_eq_true, decide_eq_true_eq] at h
    rcases h with h | ⟨hy, hm⟩
    · exact le_of_lt (monthStr_lt_of_ymLt p q hp hq (Or.inl h))
    · rcases Nat.lt_or_ge p.m q.m with hlt | hge
      · exact le_of_lt (monthStr_lt_of_ymLt p q hp hq (Or.inr ⟨hy, hlt⟩))
      · have hpq : p = q := by
          rcases p with ⟨py, pm⟩
          rcases q with ⟨qy, qm⟩
          simp only [YM.mk.injEq]
          simp only at hy hm hge
          omega
        exact hpq ▸ le_refl _

/-- `dedup` commutes with `map` when the function is injective on the list. -/
theorem dedup_map_of_injOn {α β : Type} [DecidableEq α] [DecidableEq β] (f : α → β)
    (l : List α) (hinj : ∀ a ∈ l, ∀ b ∈ l, f a = f b → a = b) :
    (l.map f).dedup = l.dedup.map f := by
  induction l with
  | nil => rfl
  | cons a l ih =>
    have hinj' : ∀ x ∈ l, ∀ y ∈ l, f x = f y → x = y := fun x hx y hy =>
      hinj x (List.mem_cons_of_mem a hx) y (List.mem_cons_of_mem a hy)
    by_cases h : a ∈ l
    · rw [List.map_cons, List.dedup_cons_of_mem (List.mem_map_of_mem f h),
        List.dedup_cons_of_mem h, ih hinj']
    · have hnm : f a ∉ l.map f := by
        intro hmem
        obtain ⟨b, hb, hfb⟩ := List.mem_map.mp hmem
        have hba : b = a :=
          hinj b (List.mem_cons_of_mem a hb) a (List.mem_cons_self a l) hfb
        exact h (hba ▸ hb)
      rw [List.map_cons, List.dedup_cons_of_not_mem hnm,
        List.dedup_cons_of_not_mem h, List.map_cons, ih hinj']

/-- Transitivity of the string comparator used by `mergeSort`. -/
theorem strLeB_trans : ∀ (a b c : String),
    decide (a ≤ b) = true → decide (b ≤ c) = true → decide (a ≤ c) = true := by
  intro a b c h1 h2
  simp only [decide_eq_true_eq] at *
  exact le_trans h1 h2

/-- Totality of the string comparator used by `mergeSort`. -/
theorem strLeB_total : ∀ (a b : String),
    (decide (a ≤ b) || decide (b ≤ a)) = true := by
  intro a b
  simp only [Bool.or_eq_true, decide_eq_true_eq]
  exact le_total a b

/-- Transitivity of the chronological comparator. -/
theorem ymLeB_trans : ∀ (p q r : YM),
    ymLeB p q = true → ymLeB q r = true → ymLeB p r = true := by
  intro p q r h1 h2
  simp only [ymLeB, Bool.or_eq_true, Bool.and_eq_true, decide_eq_true_eq] at *
  omega

/-- Totality of the chronological comparator. -/
theorem ymLeB_total : ∀ (p q : YM), (ymLeB p q || ymLeB q p) = true := by
  intro p q
  simp only [ymLeB, Bool.or_eq_true, Bool.and_eq_true, decide_eq_true_eq]
  omega

/-- The distinct periods of the table in chronological order. -/
def ymAxis (t : List Row) : List YM :=
  ((t.map (·.period)).dedup).mergeSort ymLeB

/-- The month axis is sorted (ascending) under string order. -/
theorem monthsSorted_pairwise (t : List Row) :
    (monthsSorted t).Pairwise (fun a b : String => a ≤ b) := by
  have h := List.sorted_mergeSort strLeB_trans strLeB_total
    ((t.map fun r => monthStr r.period).dedup)
  exact h.imp (fun hab => by simpa using hab)

/-- C10: formatting periods as zero-padded four-digit-year `YYYY-MM` strings
makes the heatmap's lexicographic month-key order coincide with chronological
order — on valid periods the month axis equals the chronologically sorted list
of the distinct months of the filtered data — and the axis is insensitive to
any permutation of the filtered rows. -/
theorem monthAxis_chronological (t : List Row) (ht : t ≠ [])
    (hv : ∀ r ∈ t, ValidYM r.period) :
    monthsSorted t = (ymAxis t).map monthStr ∧
    (ymAxis t).Pairwise (fun p q => ymLeB p q = true) ∧
    (∀ t' : List Row, t'.Perm t → monthsSorted t' = monthsSorted t) := by
  have hvper : ∀ p ∈ t.map (·.period), ValidYM p := by
    intro p hp
    obtain ⟨r, hr, rfl⟩ := List.mem_map.mp hp
    exact hv r hr
  have hmap : (t.map fun r => monthStr r.period)
      = (t.map (·.period)).map monthStr := by
    rw [List.map_map]
    rfl
  have hdedup : ((t.map (·.period)).map monthStr).dedup
      = ((t.map (·.period)).dedup).map monthStr := by
    apply dedup_map_of_injOn
    intro a ha b hb hab
    exact monthStr_injOn a b (hvper a ha) (hvper b hb) hab
  have hvdedup : ∀ p ∈ (t.map (·.period)).dedup, ValidYM p := by
    intro p hp
    exact hvper p (List.mem_dedup.mp hp)
  have hsortedYM : (ymAxis t).Pairwise (fun p q => ymLeB p q = true) :=
    List.sorted_mergeSort ymLeB_trans ymLeB_total _
  have hvym : ∀ p ∈ ymAxis t, ValidYM p := by
    intro p hp
    exact hvdedup p (List.mem_mergeSort.mp hp)
  have hmain : monthsSorted t = (ymAxis t).map monthStr := by
    have hperm : (monthsSorted t).Perm ((ymAxis t).map monthStr) := by
      have p1 : (monthsSorted t).Perm (((t.map (·.period)).dedup).map monthStr) := by
        rw [monthsSorted, hmap, hdedup]
        exact List.mergeSort_perm _ _
      have p2 : ((ymAxis t).map monthStr).Perm
          (((t.map (·.period)).dedup).map monthStr) :=
        (List.mergeSort_perm _ _).map _
      exact p1.trans p2.symm
    have hs2 : ((ymAxis t).map monthStr).Pairwise (fun a b : String => a ≤ b) := by
      refine List.pairwise_map.mpr (List.Pairwise.imp_of_mem ?_ hsortedYM)
      intro a b ha hb hab
      exact (monthStr_le_iff a b (hvym a ha) (hvym b hb)).mpr hab
    exact List.eq_of_perm_of_sorted hperm (monthsSorted_pairwise t) hs2
  refine ⟨hmain, hsortedYM, ?_⟩
  intro t' hperm
  have q1 : (monthsSorted t').Perm ((t'.map fun r => monthStr r.period).dedup) :=
    List.mergeSort_perm _ _
  have q2 : ((t'.map fun r => monthStr r.period).dedup).Perm
      ((t.map fun r => monthStr r.period).dedup) :=
    (hperm.map _).dedup
  have q3 : (monthsSorted t).Perm ((t.map fun r => monthStr r.period).dedup) :=
    List.mergeSort_perm _ _
  exact List.eq_of_perm_of_sorted ((q1.trans q2).trans q3.symm)
    (monthsSorted_pairwise t') (monthsSorted_pairwise t)

theorem monthAxis_chronological_witness :
    monthsSorted [rowLate, rowEarly] = (ymAxis [rowLate, rowEarly]).map monthStr ∧
    monthsSorted [rowEarly, rowLate] = monthsSorted [rowLate, rowEarly] := by
  have h := monthAxis_chronological [rowLate, rowEarly] (by decide) (by decide)
  exact ⟨h.1, h.2.2 [rowEarly, rowLate] (List.Perm.swap rowLate rowEarly [])⟩

/-! ## C7 -/

/-- A criteria selecting two stations, only one of which has data in range. -/
def twoStationCrit : Criteria :=
  { stations := ["A", "B"], dateFrom := ⟨2023, 1, 1⟩, dateTo := ⟨2023, 12, 31⟩ }

/-- C7 counterexample: the heatmap's station axis holds the stations present
in the *filtered data*, not the selected stations — selecting A and B when
only A has rows in range yields a 1×1 matrix, not 1×2. -/
theorem monthlyHeat_not_selected_stations :
    runFilter [rowLate] twoStationCrit = Except.ok [rowLate] ∧
    twoStationCrit.stations.length = 2 ∧
    (monthlyHeat [rowLate]).length = 1 ∧
    ∀ row ∈ monthlyHeat [rowLate], row.2.length = 1 := by
  have hm : monthsSorted [rowLate] = [monthStr ⟨2023, 2⟩] := by
    simp [monthsSorted, rowLate]
  have hs : stationsSorted [rowLate] = ["A"] := by
    simp [stationsSorted, rowLate]
  refine ⟨rfl, rfl, ?_, ?_⟩
  · rw [monthlyHeat, hm]
    rfl
  · intro row hrow
    rw [monthlyHeat, hm] at hrow
    simp only [List.map_cons, List.map_nil, List.mem_singleton] at hrow
    subst hrow
    rw [hs]
    rfl

/-- C7 amended: on any non-empty filtered table with valid periods, the
heatmap matrix has one axis per distinct month of the filtered data and one
per distinct station *present in the filtered data* (a selected station with
no rows in range contributes no column); each cell with a non-empty
`(월, 정차역)` group holds the group's mean down+up boardings, and a cell whose
group is empty holds the missing-data marker, never zero. -/
theorem monthlyHeat_dimensions (t : List Row) (ht : t ≠ [])
    (hv : ∀ r ∈ t, ValidYM r.period) :
    (monthlyHeat t).length = ((t.map (·.period)).dedup).length ∧
    (∀ row ∈ monthlyHeat t, row.2.length = ((t.map Row.station).dedup).length) ∧
    (∀ mo s, heatCell t mo s = none ↔
      t.filter (fun r => monthStr r.period == mo && r.station == s) = []) ∧
    (∀ mo s,
      t.filter (fun r => monthStr r.period == mo && r.station == s) ≠ [] →
      heatCell t mo s =
        some (meanOf ((t.filter (fun r => monthStr r.period == mo && r.station == s)).map
          (fun r => r.boardingDown + r.boardingUp)))) := by
  have hmlen : (monthsSorted t).length = ((t.map (·.period)).dedup).length := by
    rw [(monthAxis_chronological t ht hv).1, List.length_map, ymAxis,
      List.length_mergeSort]
  refine ⟨?_, ?_, ?_, ?_⟩
  · rw [monthlyHeat, List.length_map, hmlen]
  · intro row hrow
    simp only [monthlyHeat, List.mem_map] at hrow
    obtain ⟨mo, hmo, rfl⟩ := hrow
    simp [stationsSorted]
  · intro mo s
    by_cases hg : t.filter (fun r => monthStr r.period == mo && r.station == s) = []
    · simp [heatCell, hg]
    · have hne : (t.filter (fun r => monthStr r.period == mo && r.station == s)).isEmpty
          = false := List.isEmpty_eq_false.mpr hg
      simp [heatCell, hne, hg]
  · intro mo s hg
    have hne : (t.filter (fun r => monthStr r.period == mo && r.station == s)).isEmpty
        = false := List.isEmpty_eq_false.mpr hg
    simp [heatCell, hne]

theorem monthlyHeat_dimensions_witness :
    (monthlyHeat [rowLate, rowEarly]).length = 2 := by
  have h := monthlyHeat_dimensions [rowLate, rowEarly] (by decide) (by decide)
  rw [h.1]
  decide
